import Mathlib

/-!
Verification development for the starpy repository (src/starpy/fastagi.py and
src/starpy/manager.py): a shallow embedding of the two protocol engines
(FastAGI inbound-call protocol and AMI management protocol) together with
theorems settling the frozen claims about them.

Strings coming off the wire are modelled as Lean `String`s; all character
level processing is done on the underlying `List Char`.  Python regular
expression matches, `str` methods and `int()` conversion are modelled by
explicit recursive functions; the modelling notes next to each definition
say which Python construct it embeds.  Only ASCII text flows through these
protocols, so ASCII-only models of `str.lower`/`str.strip`/`int()` are
faithful on every input the protocols handle.
-/

namespace StarPy

/-- Python whitespace characters (the `\s` class and what `str.strip()` /
`int()` strip), restricted to ASCII: space, tab, newline, carriage return,
vertical tab, form feed. -/
def isPyWs (c : Char) : Bool :=
  c = ' ' || c = '\t' || c = '\n' || c = '\r' || c = '\x0b' || c = '\x0c'

/-- Model of Python `str.strip()` on the character list. -/
def pyStripList (l : List Char) : List Char :=
  ((l.dropWhile isPyWs).reverse.dropWhile isPyWs).reverse

/-- Model of Python `str.strip()`. -/
def pyStrip (s : String) : String :=
  ⟨pyStripList s.data⟩

/-- Split a character list at the first occurrence of `t`:
`(before, some after)` when `t` occurs, `(l, none)` otherwise.  This is the
split performed by the regex `(.*?)(?: (.*))?` (for `t = ' '`) and by
Python `line.split(':', 1)` (for `t = ':'`). -/
def splitAtFirst (t : Char) : List Char → List Char × Option (List Char)
  | [] => ([], none)
  | c :: cs =>
    if c = t then ([], some cs)
    else
      let p := splitAtFirst t cs
      (c :: p.1, p.2)

/-- Accumulator pass for the digit run of Python `int()`: digits with single
underscores allowed between digits (`int('1_0') = 10`, `int('1__0')` and
trailing or leading underscores are errors). -/
def pyDigitsCore : Nat → List Char → Option Nat
  | acc, [] => some acc
  | acc, '_' :: rest =>
    match rest with
    | c :: cs => if c.isDigit then pyDigitsCore (acc * 10 + (c.toNat - 48)) cs else none
    | [] => none
  | acc, c :: cs =>
    if c.isDigit then pyDigitsCore (acc * 10 + (c.toNat - 48)) cs else none

/-- A nonempty digit run in the sense of Python `int()` (underscores between
digits permitted, none at the ends). -/
def pyDigits? : List Char → Option Nat
  | [] => none
  | c :: cs => if c.isDigit then pyDigitsCore (c.toNat - 48) cs else none

/-- Model of Python `int(s)` on a string: surrounding whitespace is stripped,
then an optional single `+`/`-` sign followed by a nonempty digit run.
`none` models the `ValueError` raised on anything else. -/
def pyInt? (s : List Char) : Option Int :=
  match pyStripList s with
  | '+' :: ds => (pyDigits? ds).map (fun n => (n : Int))
  | '-' :: ds => (pyDigits? ds).map (fun n => -(n : Int))
  | ds => (pyDigits? ds).map (fun n => (n : Int))

/-- A Python value passed as the `failure` argument of
`FastAGIProtocol.checkFailure`: callers pass either the default int `-1` or
a string such as `'0'` / `'-2'`. -/
inductive PyParam where
  | pyInt (n : Int)
  | pyStr (s : String)
deriving DecidableEq, Repr

/-- Python `==` between the parsed int result code and the `failure`
parameter: int-to-int compares values, int-to-str is always `False`. -/
def pyEqIntParam (n : Int) : PyParam → Bool
  | .pyInt m => n == m
  | .pyStr _ => false

/-- `fastagi.FAILURE_CODE`. -/
def FAILURE_CODE : Int := -1

/-- An exception escaping one of the FastAGI result-line helpers:
`agiCommandFailure` embeds `AGICommandFailure(code, data)`, `pyValueError`
embeds an uncaught builtin `ValueError` (carrying the string `int()`
choked on). -/
inductive AGIException where
  | agiCommandFailure (code : Int) (data : String)
  | pyValueError (arg : String)
deriving DecidableEq, Repr

deriving instance DecidableEq for Except

/-- Model of `FastAGIProtocol.result_re = re.compile('\Aresult=(.*?)(?: (.*))?\Z')`
applied with `.match`: the line must begin with the literal `result=`
(no leading whitespace — `\A` anchors at the very start); the lazy first
group captures up to the first space, the optional second group the rest
after that space.  `.` does not match a newline and `\Z` anchors at the very
end, so a line containing `\n` after the literal cannot match at all. -/
def resultReMatch (l : List Char) : Option (List Char × Option (List Char)) :=
  match l with
  | 'r' :: 'e' :: 's' :: 'u' :: 'l' :: 't' :: '=' :: rest =>
    if ('\n') ∈ rest then none else some (splitAtFirst ' ' rest)
  | _ => none

/-- Model of `FastAGIProtocol.checkFailure(result, failure=-1)`.  On a regex
match, `int(match.group(1))` is computed first — a non-integer first group
raises a builtin `ValueError` that `checkFailure` does not catch; then the
parsed code is compared with `==` against the `failure` parameter (and only
against it), raising `AGICommandFailure(FAILURE_CODE, result)` on equality,
else returning the line unchanged.  A regex mismatch raises
`AGICommandFailure(FAILURE_CODE, result)`. -/
def checkFailure (result : String) (failure : PyParam) : Except AGIException String :=
  match resultReMatch result.data with
  | none => .error (.agiCommandFailure FAILURE_CODE result)
  | some (g1, _) =>
    match pyInt? g1 with
    | none => .error (.pyValueError ⟨g1⟩)
    | some code =>
      if pyEqIntParam code failure then .error (.agiCommandFailure FAILURE_CODE result)
      else .ok result

/-- Model of `FastAGIProtocol.resultAsInt(result)`: on a regex match return
`int(match.group(1))`; a `ValueError` from the conversion is caught and
re-raised as `AGICommandFailure(FAILURE_CODE, result)`, as is a regex
mismatch. -/
def resultAsInt (result : String) : Except AGIException Int :=
  match resultReMatch result.data with
  | none => .error (.agiCommandFailure FAILURE_CODE result)
  | some (g1, _) =>
    match pyInt? g1 with
    | none => .error (.agiCommandFailure FAILURE_CODE result)
    | some n => .ok n

/-- The character list of the literal `result=`. -/
def resultLit : List Char := ['r', 'e', 's', 'u', 'l', 't', '=']

/-- Modelled from the spec: the result-line grammar as §4.5/§8 of the spec
describe it — "optional leading/trailing whitespace, literal `result=`, a
signed integer, optionally followed by a single space and an arbitrary
trailing payload".  Used only to compare the spec's grammar against the
code's actual parser. -/
def specResultGrammar? (s : String) : Option (Int × Option String) :=
  match pyStripList s.data with
  | 'r' :: 'e' :: 's' :: 'u' :: 'l' :: 't' :: '=' :: rest =>
    let signed : Bool × List Char :=
      match rest with
      | '-' :: t => (true, t)
      | '+' :: t => (false, t)
      | t => (false, t)
    let digs := signed.2.takeWhile Char.isDigit
    let after := signed.2.dropWhile Char.isDigit
    if digs = [] then none
    else
      let v : Int := if signed.1 then -(Nat.ofDigits 10 (digs.map (fun c => c.toNat - 48)).reverse : Int)
                     else (Nat.ofDigits 10 (digs.map (fun c => c.toNat - 48)).reverse : Int)
      match after with
      | [] => some (v, none)
      | ' ' :: payload => some (v, some ⟨payload⟩)
      | _ => none
  | _ => none

/-- Split a character list at the LAST occurrence of the two-character
separator `': '` (the split performed by the greedy group in
`agi_variable_re = re.compile('^(agi_.*): (.*)$')`). -/
def splitLastSep : List Char → Option (List Char × List Char)
  | ':' :: ' ' :: rest =>
    (match splitLastSep rest with
     | some (a, b) => some (':' :: ' ' :: a, b)
     | none => some ([], rest))
  | c :: cs =>
    (match splitLastSep cs with
     | some (a, b) => some (c :: a, b)
     | none => none)
  | [] => none

/-- Model of `agi_variable_re.match` on a framed line (lines produced by the
line framer never contain the `\n` delimiter; a line containing `\n` is
rejected here outright, which agrees with the regex on all framed lines).
The key is everything up to the last `': '` and must start with `agi_`. -/
def agiVarReMatch (l : List Char) : Option (String × String) :=
  if ('\n') ∈ l then none
  else
    match l with
    | 'a' :: 'g' :: 'i' :: '_' :: _ =>
      match splitLastSep l with
      | some (k, v) => some (⟨k⟩, ⟨v⟩)
      | none => none
    | _ => none

/-- Model of `line_re = re.compile('^(\d{3})\s+(.*)$')` matched against a
framed line: exactly three digits, at least one whitespace character, then
the data (the greedy `\s+` eats the whole whitespace run, so the data starts
at the first non-whitespace character after the code).  As with
`agiVarReMatch`, framed lines never contain `\n`, and such lines are
rejected outright. -/
def lineReMatch (l : List Char) : Option (String × String) :=
  if ('\n') ∈ l then none
  else
    match l with
    | c1 :: c2 :: c3 :: rest =>
      if c1.isDigit && c2.isDigit && c3.isDigit then
        match rest with
        | c4 :: _ =>
          if isPyWs c4 then some (⟨[c1, c2, c3]⟩, ⟨rest.dropWhile isPyWs⟩)
          else none
        | [] => none
      else none
    | _ => none

/-- An observable effect of the FastAGI protocol engine.  Pending deferreds
are identified by the `Nat` handed out by `sendCommand`. -/
inductive AGIEvent where
  | resolvedOk (d : Nat) (data : String)
  | resolvedFail (d : Nat) (code : String) (data : String)
  | resolvedLost (d : Nat)
  | lostWaiterErrback (d : Nat)
  | varSet (key : String) (value : String)
  | onConnectCalled
  | logged (line : String)
deriving DecidableEq, Repr

/-- The per-connection state of `FastAGIProtocol`: the fields mutated by the
embedded methods.  `pendingMessages` is the FIFO of pending deferreds (by
id), `nextDF` a source of fresh deferred ids. -/
structure AGIState where
  readingVariables : Bool
  sessionVars : List (String × String)
  pendingMessages : List Nat
  lostConnectionDeferred : Option Nat
  nextDF : Nat
deriving DecidableEq, Repr

/-- `FastAGIProtocol.__init__` followed by `connectionMade`. -/
def agiConnectionMade : AGIState :=
  ⟨true, [], [], none, 0⟩

/-- Model of `FastAGIProtocol.sendCommand`: a fresh deferred is appended to
the pending FIFO before the line goes out; returns the new state, the new
deferred's id and the wire line. -/
def sendCommand (st : AGIState) (commandString : String) : AGIState × Nat × String :=
  ({ st with pendingMessages := st.pendingMessages ++ [st.nextDF], nextDF := st.nextDF + 1 },
   st.nextDF, commandString)

/-- Python dict assignment `d[k] = v` on an insertion-ordered dict modelled
as an association list: an existing key keeps its position and gets the new
value, a new key is appended. -/
def pydictSet (m : List (String × String)) (k v : String) : List (String × String) :=
  match m with
  | [] => [(k, v)]
  | (k', v') :: rest =>
    if k' = k then (k', v) :: rest else (k', v') :: pydictSet rest k v

/-- Python dict lookup `d.get(k)` on the association-list model (first
matching key; keys are unique by construction of `pydictSet`). -/
def pydictGet? (m : List (String × String)) (k : String) : Option String :=
  match m with
  | [] => none
  | (k', v) :: rest => if k' = k then some v else pydictGet? rest k

/-- Model of `FastAGIProtocol.lineReceived`.  In the attribute-reading phase
a blank line ends the phase and fires the on-connect hook, an `agi_...`
line stores a variable, anything else is logged.  In the ready phase a line
matching `line_re` pops the oldest pending deferred: code `200` resolves it
with the data, any other code errbacks it with `AGICommandFailure(code,
data)`; a non-matching line, or a reply with an empty FIFO, is logged and
dropped. -/
def lineReceived (st : AGIState) (line : String) : AGIState × List AGIEvent :=
  if st.readingVariables then
    if line = "" then ({ st with readingVariables := false }, [.onConnectCalled])
    else
      match agiVarReMatch line.data with
      | none => (st, [.logged line])
      | some (k, v) => ({ st with sessionVars := pydictSet st.sessionVars k v }, [.varSet k v])
  else
    match lineReMatch line.data with
    | none => (st, [.logged line])
    | some (code, data) =>
      match st.pendingMessages with
      | [] => (st, [.logged line])
      | d :: rest =>
        if code = "200" then ({ st with pendingMessages := rest }, [.resolvedOk d data])
        else ({ st with pendingMessages := rest }, [.resolvedFail d code data])

/-- Model of `FastAGIProtocol.connectionLost`: every pending deferred is
errbacked with `ConnectionDone` in FIFO order, then (in the `finally`
block) the registered connection-lost waiter, if any, is errbacked with the
close reason, and the pending FIFO is cleared. -/
def agiConnectionLost (st : AGIState) : AGIState × List AGIEvent :=
  ({ st with pendingMessages := [] },
   st.pendingMessages.map .resolvedLost ++
     (match st.lostConnectionDeferred with
      | some d => [.lostWaiterErrback d]
      | none => []))

/-- Feed a list of framed lines to the protocol, collecting events. -/
def runLines (st : AGIState) : List String → AGIState × List AGIEvent
  | [] => (st, [])
  | l :: ls =>
    let p := lineReceived st l
    let q := runLines p.1 ls
    (q.1, p.2 ++ q.2)

/-- Issue a list of commands through `sendCommand`, collecting the deferred
ids in issue order. -/
def sendCommands (st : AGIState) : List String → AGIState × List Nat
  | [] => (st, [])
  | c :: cs =>
    let p := sendCommand st c
    let q := sendCommands p.1 cs
    (q.1, p.2.1 :: q.2)

/-- The deferred-chain of `FastAGIProtocol.databaseDel`: the reply data is
run through `checkFailure(..., failure='0')` and then `resultAsInt`. -/
def databaseDelChain (resultLine : String) : Except AGIException Int :=
  (checkFailure resultLine (.pyStr "0")).bind resultAsInt

/-- The deferred-chain of `FastAGIProtocol.execute`: the reply data is run
through `checkFailure(..., failure='-2')` and returned unchanged. -/
def executeChain (resultLine : String) : Except AGIException String :=
  checkFailure resultLine (.pyStr "-2")

/-- Model of `InSequence._doSequence`/`onActionSuccess`/`onActionFailure`:
run the queued actions strictly in order over an accumulator of recorded
results.  Each action's outcome is given up front as an `Except`; the
returned `Nat` counts how many actions were actually invoked.  On the first
failing action the loop stops: the overall outcome is the failure reason
together with the results recorded so far (the code attaches them as
`reason.results` before `finalDF.errback(reason)`); if no action fails the
overall outcome is the full ordered result list via `finalDF.callback`. -/
def runSequence {ε α : Type} : List (Except ε α) → List α → Except (ε × List α) (List α) × Nat
  | [], acc => (.ok acc, 0)
  | .ok r :: rest, acc =>
    let p := runSequence rest (acc ++ [r])
    (p.1, p.2 + 1)
  | .error e :: _, acc => (.error (e, acc), 1)

/-- The decimal digit characters used by Python `str()` of an integer. -/
def decChar : Nat → Char
  | 0 => '0' | 1 => '1' | 2 => '2' | 3 => '3' | 4 => '4'
  | 5 => '5' | 6 => '6' | 7 => '7' | 8 => '8' | _ => '9'

/-- Fuelled big-endian decimal rendering of a positive number (`[]` for 0). -/
def pyNatStrAux : Nat → Nat → List Char
  | 0, _ => []
  | fuel + 1, n => if n = 0 then [] else pyNatStrAux fuel (n / 10) ++ [decChar (n % 10)]

/-- Model of Python `str()` of a non-negative integer: decimal digits, no
sign, no padding. -/
def pyNatStr (n : Nat) : String :=
  if n = 0 then "0" else ⟨pyNatStrAux (n + 1) n⟩

/-- Model of Python `str()` of an `int`. -/
def intStr (n : Int) : String :=
  if n < 0 then "-" ++ pyNatStr n.natAbs else pyNatStr n.natAbs

/-- A Python number as passed for the time-valued arguments of the FastAGI
operations: either an `int`, or a `float` whose value is integral (the only
floats these operations ever format; e.g. the default `timeout = 2.0` of
`getData`, and any such value times 1000, are exactly representable, and
Python renders an integral float below 10^16 as `<digits>.0`). -/
inductive PyNum where
  | pint (n : Int)
  | pfloat (v : Int)
deriving DecidableEq, Repr

/-- Python `x * 1000` on such a number: int stays int, float stays float. -/
def pyNumMul1000 : PyNum → PyNum
  | .pint n => .pint (n * 1000)
  | .pfloat v => .pfloat (v * 1000)

/-- Python `'{}'.format(x)` of such a number: `2000` for the int, `2000.0`
for the integral float. -/
def pyNumStr : PyNum → String
  | .pint n => intStr n
  | .pfloat v => intStr v ++ ".0"

/-- The numeric value carried by a `PyNum`. -/
def pyNumVal : PyNum → Int
  | .pint n => n
  | .pfloat v => v

/-- Wire command built by `FastAGIProtocol.getData(filename, timeout,
maxDigits)`: `timeout *= 1000`, then `'GET DATA "{}" {}'.format(filename,
timeout)`, plus `' {maxDigits}'` when given. -/
def getDataCommand (filename : String) (timeout : PyNum) (maxDigits : Option PyNum) : String :=
  "GET DATA \"" ++ filename ++ "\" " ++ pyNumStr (pyNumMul1000 timeout) ++
    (match maxDigits with
     | some m => " " ++ pyNumStr m
     | none => "")

/-- Wire command built by `FastAGIProtocol.waitForDigit(timeout)`:
`timeout *= 1000`, then `'WAIT FOR DIGIT {}'.format(timeout)`. -/
def waitForDigitCommand (timeout : PyNum) : String :=
  "WAIT FOR DIGIT " ++ pyNumStr (pyNumMul1000 timeout)

/-- Wire command built by `FastAGIProtocol.recordFile(...)`:
`timeout *= 1000`, then
`'RECORD FILE "{}" "{}" {} {}'.format(filename, format, escapeDigits, timeout)`
plus the optional offset, `BEEP` and `s=` suffixes. -/
def recordFileCommand (filename fmt escapeDigits : String) (timeout : PyNum)
    (offsetSamples : Option PyNum) (beep : Bool) (silence : Option PyNum) : String :=
  "RECORD FILE \"" ++ filename ++ "\" \"" ++ fmt ++ "\" " ++ escapeDigits ++ " " ++
      pyNumStr (pyNumMul1000 timeout) ++
    (match offsetSamples with
     | some o => " " ++ pyNumStr o
     | none => "") ++
    (if beep then " BEEP" else "") ++
    (match silence with
     | some s => " s=" ++ pyNumStr s
     | none => "")

/-- A registered AMI event handler: an identity plus whether invoking it
raises (a raising handler is caught and logged by `dispatchEvent`). -/
structure AMIHandler where
  hid : Nat
  raises : Bool
deriving DecidableEq, Repr

/-- A pending-response callback registered in `actionIDCallbacks`: an
identity plus whether invoking it raises (caught and logged both by
`dispatchIncoming` and `connectionLost`). -/
structure AMICallback where
  cid : Nat
  raises : Bool
deriving DecidableEq, Repr

/-- An observable effect of the AMI protocol engine. -/
inductive AMIEvent where
  | cbInvokedMsg (cid : Nat) (message : List (String × String))
  | cbInvokedLost (cid : Nat)
  | handlerInvoked (hid : Nat) (message : List (String × String))
deriving DecidableEq, Repr

/-- The per-connection state of `AMIProtocol`: the fields mutated by the
embedded methods.  `actionIDCallbacks` and `eventTypeCallbacks` are
insertion-ordered dicts modelled as association lists; the event-type key
`none` is Python's `None` wildcard. -/
structure AMIState where
  amiVersion : Option String
  messageCache : List String
  actionIDCallbacks : List (String × AMICallback)
  eventTypeCallbacks : List (Option String × List AMIHandler)
  amiId : String
  count : Nat
deriving DecidableEq, Repr

/-- First-match lookup in the `actionIDCallbacks` dict (`d.get(k)`). -/
def cbFind : List (String × AMICallback) → String → Option AMICallback
  | [], _ => none
  | (k, cb) :: rest, key => if k = key then some cb else cbFind rest key

/-- `self.eventTypeCallbacks.setdefault(ev, []).append(function)`: append to
the list of an existing key in place, or add the key at the end. -/
def setdefaultAppend (reg : List (Option String × List AMIHandler))
    (key : Option String) (h : AMIHandler) : List (Option String × List AMIHandler) :=
  match reg with
  | [] => [(key, [h])]
  | (k, hs) :: rest =>
    if k = key then (k, hs ++ [h]) :: rest else (k, hs) :: setdefaultAppend rest key h

/-- First-match lookup in the `eventTypeCallbacks` dict. -/
def handlersFind : List (Option String × List AMIHandler) → Option String → Option (List AMIHandler)
  | [], _ => none
  | (k, hs) :: rest, key => if k = key then some hs else handlersFind rest key

/-- The handler list dispatch sees for a key (empty when the key is absent —
the `KeyError` is passed over). -/
def handlersOf (reg : List (Option String × List AMIHandler)) (key : Option String) :
    List AMIHandler :=
  (handlersFind reg key).getD []

/-- Model of `AMIProtocol.registerEvent(event, function)` for a single
event name (`none` = match-all). -/
def registerEvent (st : AMIState) (event : Option String) (f : AMIHandler) : AMIState :=
  { st with eventTypeCallbacks := setdefaultAppend st.eventTypeCallbacks event f }

/-- Model of `AMIProtocol.dispatchEvent(event)`: for the keys
`(event['event'], None)` in that order, every registered handler is invoked
in registration order; a raising handler is caught and logged and the loop
continues, so the invocation list does not depend on which handlers
raise. -/
def dispatchEvent (reg : List (Option String × List AMIHandler)) (evName : String)
    (message : List (String × String)) : List AMIEvent :=
  (handlersOf reg (some evName)).map (fun h => .handlerInvoked h.hid message) ++
    (handlersOf reg none).map (fun h => .handlerInvoked h.hid message)

/-- Model of `AMIProtocol.connectionLost`: every callback in
`actionIDCallbacks` (in insertion order) is invoked once with
`ConnectionDone("Manager connection terminated")` — an exception from one
callback is caught so the others still run — and then both the pending map
and the event subscriptions are cleared. -/
def amiConnectionLost (st : AMIState) : AMIState × List AMIEvent :=
  ({ st with actionIDCallbacks := [], eventTypeCallbacks := [] },
   st.actionIDCallbacks.map (fun kv => .cbInvokedLost kv.2.cid))

/-- `'Asterisk Call Manager'`. -/
def VERSION_LIT : List Char := "Asterisk Call Manager".data

/-- `'--END COMMAND--'`. -/
def END_DATA_LIT : List Char := "--END COMMAND--".data

/-- `a` begins with `b`. -/
def listBegins : List Char → List Char → Bool
  | _, [] => true
  | [], _ :: _ => false
  | c :: cs, d :: ds => c = d && listBegins cs ds

/-- `a` ends with `b`. -/
def listEnds (a b : List Char) : Bool :=
  listBegins a.reverse b.reverse

/-- Python `line.split('\n')`. -/
def splitAll (t : Char) : List Char → List (List Char)
  | [] => [[]]
  | c :: cs =>
    if c = t then [] :: splitAll t cs
    else
      match splitAll t cs with
      | a :: parts => (c :: a) :: parts
      | [] => [[c]]

/-- Python `'\r\n'.join(parts)` on character lists, as a `String`. -/
def crlfJoin (parts : List (List Char)) : String :=
  ⟨(parts.intersperse ['\r', '\n']).flatten⟩

/-- The merge of one regular `key: value` line into the partial message of
`AMIProtocol.dispatchIncoming`: the key is lowercased and stripped, the
value stripped; a repeated key appends `'\r\n' + value` to the stored
value, a new key is inserted. -/
def mergeField (message : List (String × String)) (key value : String) :
    List (String × String) :=
  match pydictGet? message key with
  | some old => pydictSet message key (old ++ "\r\n" ++ value)
  | none => pydictSet message key value

/-- One iteration of the `while self.messageCache` loop of
`AMIProtocol.dispatchIncoming` over the pair (partial message, detected AMI
version): strip the line; skip it when blank; an `--END COMMAND--` line
stores the CRLF-joined output under `output`; a version banner records the
version; a line with a `:` merges a field; a line without one is logged
and ignored. -/
def processLine (acc : List (String × String) × Option String) (rawLine : String) :
    List (String × String) × Option String :=
  let line := pyStripList rawLine.data
  if line = [] then acc
  else if listEnds line END_DATA_LIT then
    let body := line.take (line.length - END_DATA_LIT.length)
    (pydictSet acc.1 "output" (crlfJoin (splitAll '\n' body)), acc.2)
  else if listBegins line VERSION_LIT then
    (acc.1, some ⟨pyStripList (line.drop (VERSION_LIT.length + 1))⟩)
  else
    match splitAtFirst ':' line with
    | (_, none) => acc
    | (k, some v) =>
      (mergeField acc.1 ⟨pyStripList (k.map Char.toLower)⟩ ⟨pyStripList v⟩, acc.2)

/-- Model of `AMIProtocol.dispatchIncoming`: fold the cached lines into a
message, clear the cache, then (first) fire the callback registered under
the message's `actionid`, if any — an exception from it is caught — and
(second) dispatch to event handlers when the message carries an `event`
field. -/
def dispatchIncoming (st : AMIState) : AMIState × List AMIEvent :=
  let p := st.messageCache.foldl processLine ([], st.amiVersion)
  let message := p.1
  let st' := { st with messageCache := [], amiVersion := p.2 }
  (st',
   (match pydictGet? message "actionid" with
    | some token =>
      match cbFind st.actionIDCallbacks token with
      | some cb => [.cbInvokedMsg cb.cid message]
      | none => []
    | none => []) ++
     (match pydictGet? message "event" with
      | some name => dispatchEvent st.eventTypeCallbacks name message
      | none => []))

/-- Model of `AMIProtocol.lineReceived`: the decoded line is appended to the
message cache; a line that is blank after stripping triggers
`dispatchIncoming`. -/
def amiLineReceived (st : AMIState) (line : String) : AMIState × List AMIEvent :=
  let st1 := { st with messageCache := st.messageCache ++ [line] }
  if pyStripList line.data = [] then dispatchIncoming st1 else (st1, [])

/-- Feed a list of framed lines to the AMI protocol, collecting events. -/
def amiRunLines (st : AMIState) : List String → AMIState × List AMIEvent
  | [] => (st, [])
  | l :: ls =>
    let p := amiLineReceived st l
    let q := amiRunLines p.1 ls
    (q.1, p.2 ++ q.2)

/-- Model of `AMIProtocol.generateActionId`: `self.count += 1` and then
`'{}-{}'.format(self.ami_id, self.count)` — the token embeds the counter
value after the increment. -/
def generateActionId (amiId : String) (count : Nat) : String × Nat :=
  (amiId ++ "-" ++ pyNatStr (count + 1), count + 1)

/-- The tokens produced by `n` successive `generateActionId` calls on one
connection, starting from counter value `c`. -/
def genTokens (amiId : String) : Nat → Nat → List String
  | _, 0 => []
  | c, n + 1 =>
    let p := generateActionId amiId c
    p.1 :: genTokens amiId p.2 n

/-- The outcome of `AMIProtocol.sendMessage`: the final state of the
caller's `message` object (the list form is mutated in place by
`message.append(['actionid', str(actionid)])`; the dict form is rebound to
a fresh lowercased copy, leaving the caller's dict untouched), the lines
written to the wire (including the terminating blank line), the actionid
returned, and the counter afterwards. -/
structure SendResult where
  callerMessage : List (String × String)
  wireLines : List String
  actionid : String
  count : Nat
deriving DecidableEq, Repr

/-- The `for header, value in message: if str(header.lower()) == 'actionid'`
scan of the list form of `sendMessage`: the value of the last `actionid`
pair, if any. -/
def lastActionIdValue (message : List (String × String)) : Option String :=
  (message.filterMap
    (fun kv => if kv.1.data.map Char.toLower = "actionid".data then some kv.2 else none)).getLast?

/-- The `'{}: {}'.format(str(item[0].lower()), str(item[1]))` rendering of
the header pairs. -/
def renderLines (message : List (String × String)) : List String :=
  message.map (fun kv => (⟨kv.1.data.map Char.toLower⟩ : String) ++ ": " ++ kv.2)

/-- Model of the list branch of `AMIProtocol.sendMessage`: when no
`actionid` header is present, a generated one is appended to the caller's
list object in place, then every pair is rendered and sent followed by a
blank line. -/
def sendMessageList (message : List (String × String)) (amiId : String) (count : Nat) :
    SendResult :=
  match lastActionIdValue message with
  | some tok => ⟨message, renderLines message ++ [""], tok, count⟩
  | none =>
    let p := generateActionId amiId count
    let message' := message ++ [("actionid", p.1)]
    ⟨message', renderLines message' ++ [""], p.1, p.2⟩

/-- `dict([(k.lower(), v) for (k, v) in message.items()])`: the fresh
lowercased-key copy built by the dict branch (later duplicates overwrite
earlier ones, insertion order of the first occurrence is kept). -/
def lowerDict (message : List (String × String)) : List (String × String) :=
  message.foldl (fun acc kv => pydictSet acc ⟨kv.1.data.map Char.toLower⟩ kv.2) []

/-- Model of the dict branch of `AMIProtocol.sendMessage`: the local name is
rebound to the lowercased copy, the generated `actionid` is added only to
that copy, and the caller's dict is never mutated. -/
def sendMessageDict (message : List (String × String)) (amiId : String) (count : Nat) :
    SendResult :=
  let m := lowerDict message
  match pydictGet? m "actionid" with
  | some tok => ⟨message, renderLines m ++ [""], tok, count⟩
  | none =>
    let p := generateActionId amiId count
    let m' := pydictSet m "actionid" p.1
    ⟨message, renderLines m' ++ [""], p.1, p.2⟩

/-- The exact shape of a line accepted by `result_re` with first group
`code`: the literal `result=` at the very start, then `code` (no space, no
newline), then either nothing or a single space and an arbitrary
newline-free payload. -/
def MatchesCodeGrammar (s : String) (code : List Char) : Prop :=
  (' ') ∉ code ∧ ('\n') ∉ code ∧
    (s.data = resultLit ++ code ∨
      ∃ payload : List Char, ('\n') ∉ payload ∧ s.data = resultLit ++ code ++ ' ' :: payload)

/-- The event `lineReceived` emits for a parsed `(code, data)` reply when a
pending deferred `d` is at the head of the FIFO. -/
def replyEvent (d : Nat) (cd : String × String) : AGIEvent :=
  if cd.1 = "200" then .resolvedOk d cd.2 else .resolvedFail d cd.1 cd.2

/-- Perform a sequence of `registerEvent` calls. -/
def registerAll (st : AMIState) (regs : List (Option String × AMIHandler)) : AMIState :=
  regs.foldl (fun s kv => registerEvent s kv.1 kv.2) st

theorem splitAtFirst_of_not_mem {t : Char} : ∀ {l : List Char}, t ∉ l → splitAtFirst t l = (l, none) := by
  intro l h
  induction l with
  | nil => rfl
  | cons c cs ih =>
    have hct : ¬c = t := fun hc => h (hc ▸ List.mem_cons_self c cs)
    have hcs : t ∉ cs := fun hm => h (List.mem_cons_of_mem c hm)
    simp [splitAtFirst, hct, ih hcs]

theorem splitAtFirst_append {t : Char} : ∀ {a : List Char}, t ∉ a → ∀ b, splitAtFirst t (a ++ t :: b) = (a, some b) := by
  intro a
  induction a with
  | nil => intro _ b; simp [splitAtFirst]
  | cons c cs ih =>
    intro h b
    have hct : ¬c = t := fun hc => h (hc ▸ List.mem_cons_self c cs)
    have hcs : t ∉ cs := fun hm => h (List.mem_cons_of_mem c hm)
    simp [splitAtFirst, hct, ih hcs]

theorem splitAtFirst_eq_none {t : Char} : ∀ {l a : List Char}, splitAtFirst t l = (a, none) → l = a ∧ t ∉ l := by
  intro l
  induction l with
  | nil =>
    intro a h
    rw [Prod.mk.injEq] at h
    exact ⟨h.1, by simp⟩
  | cons c cs ih =>
    intro a h
    by_cases hct : c = t
    · simp only [splitAtFirst, if_pos hct, Prod.mk.injEq] at h
      exact absurd h.2 (by simp)
    · simp only [splitAtFirst, if_neg hct] at h
      rcases hsp : splitAtFirst t cs with ⟨a', o⟩
      rw [hsp, Prod.mk.injEq] at h
      obtain ⟨h1, h2⟩ := h
      cases o with
      | some b => exact absurd h2 (by simp)
      | none =>
        obtain ⟨hcs, hnm⟩ := ih hsp
        refine ⟨by rw [← h1, hcs], ?_⟩
        intro hm
        rcases List.mem_cons.mp hm with h' | h'
        · exact hct h'.symm
        · exact hnm h'

theorem splitAtFirst_eq_some {t : Char} : ∀ {l a b : List Char}, splitAtFirst t l = (a, some b) → l = a ++ t :: b ∧ t ∉ a := by
  intro l
  induction l with
  | nil =>
    intro a b h
    rw [Prod.mk.injEq] at h
    exact absurd h.2 (fun hx => by cases hx)
  | cons c cs ih =>
    intro a b h
    by_cases hct : c = t
    · simp only [splitAtFirst, if_pos hct, Prod.mk.injEq] at h
      obtain ⟨h1, h2⟩ := h
      rw [Option.some.injEq] at h2
      subst hct h2
      rw [← h1]
      exact ⟨by simp, by simp⟩
    · simp only [splitAtFirst, if_neg hct] at h
      rcases hsp : splitAtFirst t cs with ⟨a', o⟩
      rw [hsp, Prod.mk.injEq] at h
      obtain ⟨h1, h2⟩ := h
      cases o with
      | none => exact absurd h2 (by simp)
      | some b' =>
        rw [Option.some.injEq] at h2
        subst h2
        obtain ⟨hcs, hnm⟩ := ih hsp
        refine ⟨by rw [← h1, hcs]; simp, ?_⟩
        intro hm
        rw [← h1] at hm
        rcases List.mem_cons.mp hm with h' | h'
        · exact hct h'.symm
        · exact hnm h'

theorem resultReMatch_eq_some {l : List Char} {p : List Char × Option (List Char)}
    (h : resultReMatch l = some p) :
    ∃ rest, l = resultLit ++ rest ∧ ('\n') ∉ rest ∧ splitAtFirst ' ' rest = p := by
  unfold resultReMatch at h
  split at h
  · next rest =>
    split at h
    · exact absurd h (by simp)
    · next hnl => exact ⟨rest, rfl, hnl, by injection h⟩
  · exact absurd h (by simp)

theorem resultReMatch_construct {rest : List Char} (h : ('\n') ∉ rest) :
    resultReMatch (resultLit ++ rest) = some (splitAtFirst ' ' rest) := by
  have he : resultReMatch (resultLit ++ rest)
      = if ('\n') ∈ rest then none else some (splitAtFirst ' ' rest) := rfl
  rw [he, if_neg h]

/-- C2 (counterexample): the claimed grammar tolerates optional leading
whitespace, but the code's parsers do not — on the line `" result=5"` the
spec-modelled grammar accepts with code 5 while both `resultAsInt` and
`checkFailure` raise a typed fault, because `result_re` is anchored with
`\A` at the very first character. -/
theorem resultGrammar_whitespace_counterexample :
    specResultGrammar? " result=5" = some (5, none) ∧
    resultAsInt " result=5" = .error (.agiCommandFailure (-1) " result=5") ∧
    checkFailure " result=5" (.pyInt (-1)) = .error (.agiCommandFailure (-1) " result=5") := by
  decide

/-- C2 (amended): the parsers accept exactly the anchored grammar — the
literal `result=` at the very start of the line (no leading or trailing
whitespace tolerated), a code segment running to the first space (or to the
end), which must parse as a Python integer, optionally followed by a single
space and an arbitrary newline-free payload (spaces and parentheses
allowed).  `resultAsInt` turns every non-matching input into the typed
fault `AGICommandFailure(-1, line)`; `checkFailure`, however, lets an
untyped `ValueError` escape when the code segment is not an integer. -/
theorem resultGrammar_acceptance :
    (∀ (s : String) (n : Int),
        resultAsInt s = .ok n ↔ ∃ code, MatchesCodeGrammar s code ∧ pyInt? code = some n) ∧
    (∀ s : String, (∃ n, resultAsInt s = .ok n) ∨
        resultAsInt s = .error (.agiCommandFailure (-1) s)) ∧
    checkFailure "result=x" (.pyInt (-1)) = .error (.pyValueError "x") := by
  refine ⟨?_, ?_, by decide⟩
  · intro s n
    constructor
    · intro h
      rcases hm : resultReMatch s.data with _ | ⟨g1, g2⟩
      · simp only [resultAsInt, hm] at h
        exact Except.noConfusion h
      · simp only [resultAsInt, hm] at h
        rcases hp : pyInt? g1 with _ | m
        · simp only [hp] at h
          exact Except.noConfusion h
        · simp only [hp, Except.ok.injEq] at h
          subst h
          obtain ⟨rest, hs, hnl, hsp⟩ := resultReMatch_eq_some hm
          cases g2 with
          | none =>
            obtain ⟨hgl, hnsp⟩ := splitAtFirst_eq_none hsp
            subst hgl
            exact ⟨rest, ⟨hnsp, hnl, Or.inl hs⟩, hp⟩
          | some b =>
            obtain ⟨hgl, hnsp⟩ := splitAtFirst_eq_some hsp
            subst hgl
            refine ⟨g1, ⟨hnsp, fun hx => hnl ?_, Or.inr ⟨b, fun hx => hnl ?_, ?_⟩⟩, hp⟩
            · exact List.mem_append.mpr (Or.inl hx)
            · exact List.mem_append.mpr (Or.inr (List.mem_cons_of_mem _ hx))
            · rw [hs, List.append_assoc]
    · rintro ⟨code, ⟨hnsp, hnl, hshape⟩, hpi⟩
      rcases hshape with hs | ⟨payload, hpnl, hs⟩
      · have hm : resultReMatch s.data = some (code, none) := by
          rw [hs, resultReMatch_construct hnl, splitAtFirst_of_not_mem hnsp]
        simp only [resultAsInt, hm, hpi]
      · have hrest : ('\n') ∉ code ++ ' ' :: payload := by
          intro hx
          rcases List.mem_append.mp hx with hx | hx
          · exact hnl hx
          · rcases List.mem_cons.mp hx with hx | hx
            · exact absurd hx (by decide)
            · exact hpnl hx
        have hm : resultReMatch s.data = some (code, some payload) := by
          rw [hs, List.append_assoc, resultReMatch_construct hrest, splitAtFirst_append hnsp]
        simp only [resultAsInt, hm, hpi]
  · intro s
    rcases hm : resultReMatch s.data with _ | ⟨g1, g2⟩
    · right
      simp only [resultAsInt, hm]
      rfl
    · rcases hp : pyInt? g1 with _ | m
      · right
        simp only [resultAsInt, hm, hp]
        rfl
      · exact Or.inl ⟨m, by simp only [resultAsInt, hm, hp]⟩

/-- C2 (witness): the amended acceptance theorem applied at the line
`"result=5 ok"`, whose code segment is `5` with payload `ok`. -/
theorem resultGrammar_acceptance_witness :
    resultAsInt "result=5 ok" = .ok 5 :=
  (resultGrammar_acceptance.1 "result=5 ok" 5).mpr
    ⟨['5'], ⟨by decide, by decide, Or.inr ⟨"ok".data, by decide, by decide⟩⟩, by decide⟩

/-- C3: evaluation of `checkFailure` at the failing inputs.  The claim (and
the spec) say a result code equal to the caller's sentinel — `'0'` for
`databaseDel`, `'-2'` for `execute` — or equal to the literal `-1` raises a
typed fault.  The code compares the parsed `int` against the sentinel with
`==` and only against the sentinel: since an `int` never equals a `str` in
Python, the string sentinels can never fire, so `databaseDel` on the reply
`result=0` soft-returns `0` and `execute` on `result=-2` soft-returns the
line; and with the sentinel `'0'` installed, the code `-1` does not raise
either.  The int default `-1` does fire, which isolates the slip to the
str-typed sentinels. -/
theorem sentinel_type_confusion :
    checkFailure "result=0" (.pyStr "0") = .ok "result=0" ∧
    databaseDelChain "result=0" = .ok 0 ∧
    checkFailure "result=-1" (.pyStr "0") = .ok "result=-1" ∧
    executeChain "result=-2" = .ok "result=-2" ∧
    checkFailure "result=-1" (.pyInt (-1)) = .error (.agiCommandFailure (-1) "result=-1") := by
  decide

/-- Intermediate: `runSequence` over an all-successful list of actions. -/
theorem runSequence_all_ok {α ε : Type} :
    ∀ (rs : List α) (acc : List α),
      runSequence (α := α) (ε := ε) (rs.map .ok) acc = (.ok (acc ++ rs), rs.length) := by
  intro rs
  induction rs with
  | nil => intro acc; simp [runSequence]
  | cons r rest ih =>
    intro acc
    simp [runSequence, ih (acc ++ [r])]

/-- Intermediate: `runSequence` when the actions are `pre` successes
followed by a failure (and anything after it). -/
theorem runSequence_first_failure {α ε : Type} :
    ∀ (pre : List α) (e : ε) (post : List (Except ε α)) (acc : List α),
      runSequence (pre.map .ok ++ .error e :: post) acc = (.error (e, acc ++ pre), pre.length + 1) := by
  intro pre
  induction pre with
  | nil => intro e post acc; simp [runSequence]
  | cons r rest ih =>
    intro e post acc
    simp [runSequence, ih e post (acc ++ [r]), List.append_assoc]

/-- C5: an `InSequence` run over actions whose k-th member is the first to
fail stops after invoking exactly k actions (the `Nat` component counts
invocations, so actions after the failing one are never invoked) and
errbacks with the triggering reason carrying the ordered list of the k-1
results recorded before the failure; with no failing action it calls back
with the full ordered result list after invoking every action.  The third
conjunct is the spec's 3-action instance: action 2 fails, the attached
partial-results list is exactly `[r1]`, action 3 is never invoked. -/
theorem inSequence_stops_at_first_failure :
    (∀ (α ε : Type) (pre : List α) (e : ε) (post : List (Except ε α)),
        runSequence (pre.map .ok ++ .error e :: post) [] = (.error (e, pre), pre.length + 1)) ∧
    (∀ (α ε : Type) (rs : List α),
        runSequence (α := α) (ε := ε) (rs.map .ok) [] = (.ok rs, rs.length)) ∧
    (∀ (r1 r3 : Nat) (e : String),
        runSequence [Except.ok r1, Except.error e, Except.ok r3] [] = (.error (e, [r1]), 2)) := by
  refine ⟨fun α ε pre e post => ?_, fun α ε rs => ?_, fun r1 r3 e => ?_⟩
  · simpa using runSequence_first_failure pre e post []
  · simpa using runSequence_all_ok rs []
  · have := runSequence_first_failure (α := Nat) (ε := String) [r1] e [Except.ok r3] []
    simpa using this

/-- C9 (counterexample): `getData`'s default-style timeout argument `2.0`
is a Python float; `2.0 * 1000` formats as `2000.0`, so the wire line is
`GET DATA "file" 2000.0`, not the claimed `GET DATA "file" 2000`. -/
theorem getData_float_format_counterexample :
    getDataCommand "file" (.pfloat 2) none = "GET DATA \"file\" 2000.0" ∧
    getDataCommand "file" (.pfloat 2) none ≠ "GET DATA \"file\" 2000" := by
  decide

/-- C9 (amended): every time-valued argument is multiplied by 1000 before
being rendered, so the value placed on the wire is in milliseconds; the
rendered text follows Python number formatting — the float `2.0` renders
as `2000.0` after conversion while the int `2` renders as `2000` — as it
does in `waitForDigit` and `recordFile`. -/
theorem timeArguments_milliseconds :
    (∀ t : PyNum, pyNumVal (pyNumMul1000 t) = 1000 * pyNumVal t) ∧
    getDataCommand "file" (.pint 2) none = "GET DATA \"file\" 2000" ∧
    getDataCommand "file" (.pfloat 2) none = "GET DATA \"file\" 2000.0" ∧
    waitForDigitCommand (.pint 2) = "WAIT FOR DIGIT 2000" ∧
    waitForDigitCommand (.pfloat 2) = "WAIT FOR DIGIT 2000.0" ∧
    recordFileCommand "f" "wav" "#" (.pint (-1)) none true none =
      "RECORD FILE \"f\" \"wav\" # -1000 BEEP" ∧
    recordFileCommand "f" "wav" "#" (.pint 3) (some (.pint 16)) false (some (.pint 2)) =
      "RECORD FILE \"f\" \"wav\" # 3000 16 s=2" := by
  refine ⟨fun t => ?_, by decide, by decide, by decide, by decide, by decide, by decide⟩
  cases t with
  | pint n => simp [pyNumVal, pyNumMul1000, Int.mul_comm]
  | pfloat v => simp [pyNumVal, pyNumMul1000, Int.mul_comm]

/-- Intermediate: issuing `cmds` through `sendCommand` appends one fresh
deferred per command to the FIFO, in issue order. -/
theorem sendCommands_spec : ∀ (cmds : List String) (st : AGIState),
    sendCommands st cmds =
      ({ st with pendingMessages := st.pendingMessages ++ List.range' st.nextDF cmds.length,
                 nextDF := st.nextDF + cmds.length },
       List.range' st.nextDF cmds.length) := by
  intro cmds
  induction cmds with
  | nil =>
    intro st
    simp [sendCommands]
  | cons c cs ih =>
    intro st
    show (let p := sendCommand st c
          let q := sendCommands p.1 cs
          (q.1, p.2.1 :: q.2)) = _
    simp only [sendCommand]
    rw [ih]
    simp [List.range'_succ, AGIState.mk.injEq]
    omega

/-- Intermediate: feeding well-formed reply lines to a ready connection
resolves the oldest pending deferreds one-to-one, in FIFO order. -/
theorem runLines_replies :
    ∀ {lines : List String} {parsed : List (String × String)},
      List.Forall₂ (fun (l : String) cd => lineReMatch l.data = some cd) lines parsed →
      ∀ st : AGIState, st.readingVariables = false →
      parsed.length ≤ st.pendingMessages.length →
      runLines st lines =
        ({ st with pendingMessages := st.pendingMessages.drop parsed.length },
         (st.pendingMessages.zip parsed).map (fun q => replyEvent q.1 q.2)) := by
  intro lines parsed hf
  induction hf with
  | nil =>
    intro st hrv _
    simp [runLines]
  | @cons l cd ls ps hlm _ ih =>
    intro st hrv hlen
    rcases hpend : st.pendingMessages with _ | ⟨d, rest⟩
    · rw [hpend] at hlen
      simp at hlen
    · have hstep : lineReceived st l = ({ st with pendingMessages := rest }, [replyEvent d cd]) := by
        by_cases h2 : cd.1 = "200" <;>
          simp [lineReceived, hrv, hlm, hpend, replyEvent, h2]
      have hlen' : ps.length ≤ rest.length := by
        rw [hpend] at hlen
        simp at hlen
        omega
      have ih' := ih { st with pendingMessages := rest } (by simp [hrv]) (by simpa using hlen')
      show (let p := lineReceived st l
            let q := runLines p.1 ls
            (q.1, p.2 ++ q.2)) = _
      rw [hstep]
      simp only [ih']
      simp [hpend]

/-- C1: starting from a ready connection with an empty FIFO, issue N
commands through `sendCommand`, then let N reply lines arrive; the replies
resolve the N pending completions one-to-one in send (FIFO) order — the
i-th reply resolves the i-th deferred, as a success carrying the data when
its code is `200` and as an `AGICommandFailure` carrying the code and data
otherwise (`replyEvent`) — leaving the FIFO empty. -/
theorem fastagi_fifo_correlation (st0 : AGIState) (cmds lines : List String)
    (parsed : List (String × String))
    (hrv : st0.readingVariables = false)
    (hp0 : st0.pendingMessages = [])
    (hmatch : List.Forall₂ (fun (l : String) cd => lineReMatch l.data = some cd) lines parsed)
    (hlen : parsed.length = cmds.length) :
    runLines (sendCommands st0 cmds).1 lines =
      ({ (sendCommands st0 cmds).1 with pendingMessages := [] },
       ((sendCommands st0 cmds).2.zip parsed).map (fun q => replyEvent q.1 q.2)) := by
  rw [sendCommands_spec]
  have hlr := runLines_replies hmatch
      { st0 with pendingMessages := st0.pendingMessages ++ List.range' st0.nextDF cmds.length,
                 nextDF := st0.nextDF + cmds.length }
      (by simp [hrv]) (by simp [hp0, hlen])
  rw [hlr]
  simp [hp0, hlen]

/-- C1 (witness): two commands issued on a fresh ready connection, then a
`200` success reply and a `510` failure reply: the first resolves deferred
0 with its data, the second errbacks deferred 1 with code `510`. -/
theorem fastagi_fifo_correlation_witness :
    runLines (sendCommands { agiConnectionMade with readingVariables := false }
        ["ANSWER", "HANGUP"]).1 ["200 result=0", "510 Invalid command"] =
      ({ (sendCommands { agiConnectionMade with readingVariables := false }
            ["ANSWER", "HANGUP"]).1 with pendingMessages := [] },
       (((sendCommands { agiConnectionMade with readingVariables := false }
            ["ANSWER", "HANGUP"]).2.zip
          [("200", "result=0"), ("510", "Invalid command")]).map
            (fun q => replyEvent q.1 q.2))) :=
  fastagi_fifo_correlation _ _ _ _ (by decide) (by decide)
    (.cons (by decide) (.cons (by decide) .nil)) (by decide)

/-- C4: on disconnect, the FastAGI engine errbacks every pending completion
with the connection-closed fault in FIFO order (plus the registered
connection-closed waiter, at most one) and clears the FIFO; each distinct
pending completion is resolved exactly once.  The AMI engine invokes every
pending-correlation entry once with the connection-terminated fault and
clears both the pending map and the event subscriptions; with distinct
callbacks each is likewise invoked exactly once (an exception inside one
callback is caught, so it cannot suppress the others). -/
theorem disconnect_resolves_all_pending :
    (∀ st : AGIState,
        agiConnectionLost st =
          ({ st with pendingMessages := [] },
           st.pendingMessages.map AGIEvent.resolvedLost ++
             (match st.lostConnectionDeferred with
              | some d => [AGIEvent.lostWaiterErrback d]
              | none => []))) ∧
    (∀ st : AGIState, st.pendingMessages.Nodup →
        ∀ d ∈ st.pendingMessages,
          ((agiConnectionLost st).2.count (AGIEvent.resolvedLost d)) = 1) ∧
    (∀ st : AMIState,
        amiConnectionLost st =
          ({ st with actionIDCallbacks := [], eventTypeCallbacks := [] },
           st.actionIDCallbacks.map (fun kv => AMIEvent.cbInvokedLost kv.2.cid))) ∧
    (∀ st : AMIState, (st.actionIDCallbacks.map (fun kv => kv.2.cid)).Nodup →
        ∀ kv ∈ st.actionIDCallbacks,
          ((amiConnectionLost st).2.count (AMIEvent.cbInvokedLost kv.2.cid)) = 1) := by
  have hinjAGI : Function.Injective AGIEvent.resolvedLost := by
    intro a b h
    cases h
    rfl
  have hinjAMI : Function.Injective AMIEvent.cbInvokedLost := by
    intro a b h
    cases h
    rfl
  refine ⟨fun st => rfl, ?_, fun st => rfl, ?_⟩
  · intro st hnd d hd
    show ((st.pendingMessages.map AGIEvent.resolvedLost ++ _).count (AGIEvent.resolvedLost d)) = 1
    rw [List.count_append, List.count_map_of_injective _ _ hinjAGI,
      List.count_eq_one_of_mem hnd hd]
    rcases st.lostConnectionDeferred with _ | d'
    · rfl
    · rw [List.count_eq_zero.mpr (by simp)]
  · intro st hnd kv hkv
    show ((st.actionIDCallbacks.map (fun kv => AMIEvent.cbInvokedLost kv.2.cid)).count
        (AMIEvent.cbInvokedLost kv.2.cid)) = 1
    have hsplit : (fun kv : String × AMICallback => AMIEvent.cbInvokedLost kv.2.cid)
        = AMIEvent.cbInvokedLost ∘ (fun kv : String × AMICallback => kv.2.cid) := rfl
    rw [hsplit, ← List.map_map, List.count_map_of_injective _ _ hinjAMI,
      List.count_eq_one_of_mem hnd (List.mem_map_of_mem _ hkv)]

/-- C4 (witness): a connection with two pending FastAGI completions and one
pending AMI correlation entry; on disconnect each of the three is resolved
with a connection-closed fault exactly once. -/
theorem disconnect_resolves_all_pending_witness :
    ((agiConnectionLost ⟨false, [], [0, 1], none, 2⟩).2.count (AGIEvent.resolvedLost 0)) = 1 ∧
    ((agiConnectionLost ⟨false, [], [0, 1], none, 2⟩).2.count (AGIEvent.resolvedLost 1)) = 1 ∧
    ((amiConnectionLost ⟨none, [], [("x-1", ⟨5, false⟩)], [], "u", 1⟩).2.count
        (AMIEvent.cbInvokedLost 5)) = 1 :=
  ⟨disconnect_resolves_all_pending.2.1 ⟨false, [], [0, 1], none, 2⟩ (by decide) 0 (by decide),
   disconnect_resolves_all_pending.2.1 ⟨false, [], [0, 1], none, 2⟩ (by decide) 1 (by decide),
   disconnect_resolves_all_pending.2.2.2 ⟨none, [], [("x-1", ⟨5, false⟩)], [], "u", 1⟩
     (by decide) ("x-1", ⟨5, false⟩) (by decide)⟩

/-- Intermediate: `setdefault(key, []).append(h)` extends exactly the
handler list of `key`, preserving every other key's list. -/
theorem handlersOf_setdefaultAppend :
    ∀ (reg : List (Option String × List AMIHandler)) (key k : Option String) (h : AMIHandler),
      handlersOf (setdefaultAppend reg key h) k =
        if k = key then handlersOf reg k ++ [h] else handlersOf reg k := by
  intro reg
  induction reg with
  | nil =>
    intro key k h
    by_cases hk : k = key
    · subst hk
      simp [handlersOf, handlersFind, setdefaultAppend]
    · simp [handlersOf, handlersFind, setdefaultAppend, hk, Ne.symm hk]
  | cons kv rest ih =>
    intro key k h
    obtain ⟨k', hs'⟩ := kv
    by_cases hk' : k' = key
    · subst hk'
      by_cases hkk : k' = k
      · subst hkk
        simp [handlersOf, handlersFind, setdefaultAppend]
      · simp [handlersOf, handlersFind, setdefaultAppend, hkk, Ne.symm hkk]
    · by_cases hkk : k' = k
      · subst hkk
        simp [handlersOf, handlersFind, setdefaultAppend, hk',
          fun hx : k' = key => hk' hx]
      · simp only [setdefaultAppend, if_neg hk', handlersOf, handlersFind, hkk, if_neg hkk]
        exact ih key k h

/-- Intermediate: after a sequence of `registerEvent` calls, the handler
list for each key is the previously registered list followed by the newly
registered handlers for that key, in registration order. -/
theorem handlersOf_registerAll :
    ∀ (regs : List (Option String × AMIHandler)) (st : AMIState) (k : Option String),
      handlersOf (registerAll st regs).eventTypeCallbacks k =
        handlersOf st.eventTypeCallbacks k ++
          (regs.filter (fun kv => kv.1 = k)).map (fun kv => kv.2) := by
  intro regs
  induction regs with
  | nil =>
    intro st k
    simp [registerAll]
  | cons kv rest ih =>
    intro st k
    obtain ⟨key, hdl⟩ := kv
    show handlersOf (registerAll (registerEvent st key hdl) rest).eventTypeCallbacks k = _
    rw [ih]
    by_cases hk : key = k
    · subst hk
      simp [registerEvent, handlersOf_setdefaultAppend, List.filter_cons]
    · simp [registerEvent, handlersOf_setdefaultAppend, hk, Ne.symm hk, List.filter_cons]

/-- C6: dispatching an event after any sequence of registrations invokes
first the handlers registered for the event's specific type, in
registration order, then the handlers registered for the `None` wildcard,
in registration order.  The `raises` flags of the handlers are
unconstrained: a raising handler is caught and logged by the dispatch loop,
so it never prevents the invocation of the remaining handlers. -/
theorem eventDispatch_order (st0 : AMIState) (h0 : st0.eventTypeCallbacks = [])
    (regs : List (Option String × AMIHandler)) (evName : String)
    (msg : List (String × String)) :
    dispatchEvent (registerAll st0 regs).eventTypeCallbacks evName msg =
      ((regs.filter (fun kv => kv.1 = some evName)).map
          (fun kv => AMIEvent.handlerInvoked kv.2.hid msg)) ++
        ((regs.filter (fun kv => kv.1 = (none : Option String))).map
          (fun kv => AMIEvent.handlerInvoked kv.2.hid msg)) := by
  unfold dispatchEvent
  rw [handlersOf_registerAll, handlersOf_registerAll, h0]
  simp only [handlersOf, handlersFind, Option.getD_none, List.nil_append, List.map_map]
  rfl

/-- C6 (witness): handler 1 registered for `"Hangup"` (and raising) and
handler 2 registered for the wildcard; a `Hangup` event invokes 1 then 2 —
the exception in handler 1 does not prevent handler 2's invocation. -/
theorem eventDispatch_order_witness :
    dispatchEvent
        (registerAll ⟨none, [], [], [], "u", 0⟩
          [(some "Hangup", ⟨1, true⟩), (none, ⟨2, false⟩)]).eventTypeCallbacks
        "Hangup" [("event", "Hangup")] =
      [AMIEvent.handlerInvoked 1 [("event", "Hangup")],
       AMIEvent.handlerInvoked 2 [("event", "Hangup")]] := by
  rw [eventDispatch_order ⟨none, [], [], [], "u", 0⟩ rfl]
  decide

/-- Intermediate: looking up a key right after `d[k] = v` yields `v`. -/
theorem pydictGet?_set_self :
    ∀ (m : List (String × String)) (k v : String), pydictGet? (pydictSet m k v) k = some v := by
  intro m k v
  induction m with
  | nil => simp [pydictSet, pydictGet?]
  | cons kv rest ih =>
    obtain ⟨k', v'⟩ := kv
    by_cases hk : k' = k
    · simp [pydictSet, pydictGet?, hk]
    · simp [pydictSet, pydictGet?, hk, ih]

/-- C7: a message reassembled from the lines `"Response: Success"`,
`"ActionID: x-1"` and the blank terminator is the mapping
`{response ↦ Success, actionid ↦ x-1}` (field names lowercased, values
stripped), and it resolves the callback registered under the correlation
token `x-1` with exactly that mapping, clearing the line cache; in general
a field line whose lowercased key is already present appends its value to
the stored one joined by CRLF, while a new key is inserted with its
value. -/
theorem message_reassembly_correlation :
    (∀ (cb : AMICallback) (ver : Option String) (amiId : String) (c : Nat),
        amiRunLines ⟨ver, [], [("x-1", cb)], [], amiId, c⟩
            ["Response: Success", "ActionID: x-1", ""] =
          (⟨ver, [], [("x-1", cb)], [], amiId, c⟩,
           [AMIEvent.cbInvokedMsg cb.cid [("response", "Success"), ("actionid", "x-1")]])) ∧
    (∀ (m : List (String × String)) (k v old : String),
        pydictGet? m k = some old →
          pydictGet? (mergeField m k v) k = some (old ++ "\r\n" ++ v)) ∧
    (∀ (m : List (String × String)) (k v : String),
        pydictGet? m k = none → pydictGet? (mergeField m k v) k = some v) := by
  refine ⟨fun cb ver amiId c => rfl, ?_, ?_⟩
  · intro m k v old h
    unfold mergeField
    rw [h]
    exact pydictGet?_set_self ..
  · intro m k v h
    unfold mergeField
    rw [h]
    exact pydictGet?_set_self ..

/-- C7 (witness): the concrete-assembly conjunct applied at a callback, and
the repeated-key conjunct applied to a one-entry message: merging a second
`a` field joins the values with CRLF. -/
theorem message_reassembly_correlation_witness :
    amiRunLines ⟨none, [], [("x-1", ⟨7, false⟩)], [], "u", 3⟩
        ["Response: Success", "ActionID: x-1", ""] =
      (⟨none, [], [("x-1", ⟨7, false⟩)], [], "u", 3⟩,
       [AMIEvent.cbInvokedMsg 7 [("response", "Success"), ("actionid", "x-1")]]) ∧
    pydictGet? (mergeField [("a", "1")] "a" "2") "a" = some ("1" ++ "\r\n" ++ "2") :=
  ⟨message_reassembly_correlation.1 ⟨7, false⟩ none "u" 3,
   message_reassembly_correlation.2.1 [("a", "1")] "a" "2" "1" (by decide)⟩

/-- Intermediate: the ten decimal digit characters are pairwise distinct. -/
theorem decChar_fin_inj : ∀ a b : Fin 10, decChar a.val = decChar b.val → a = b := by
  decide

/-- Intermediate: `decChar` is injective on digits. -/
theorem decChar_inj {a b : Nat} (ha : a < 10) (hb : b < 10) (h : decChar a = decChar b) :
    a = b := by
  have := decChar_fin_inj ⟨a, ha⟩ ⟨b, hb⟩ h
  exact congrArg Fin.val this

/-- Intermediate: mapping `decChar` over digit lists is injective. -/
theorem map_decChar_inj :
    ∀ {l1 l2 : List Nat}, (∀ d ∈ l1, d < 10) → (∀ d ∈ l2, d < 10) →
      l1.map decChar = l2.map decChar → l1 = l2 := by
  intro l1
  induction l1 with
  | nil =>
    intro l2 _ _ h
    cases l2 with
    | nil => rfl
    | cons b l2 => simp at h
  | cons a l1 ih =>
    intro l2 h1 h2 h
    cases l2 with
    | nil => simp at h
    | cons b l2 =>
      simp only [List.map_cons, List.cons.injEq] at h
      have ha := h1 a (List.mem_cons_self a l1)
      have hb := h2 b (List.mem_cons_self b l2)
      rw [decChar_inj ha hb h.1,
        ih (fun d hd => h1 d (List.mem_cons_of_mem a hd))
          (fun d hd => h2 d (List.mem_cons_of_mem b hd)) h.2]

/-- Intermediate: with enough fuel, `pyNatStrAux` renders exactly the
base-10 digits of `n`, most significant first. -/
theorem pyNatStrAux_eq_digits :
    ∀ (fuel n : Nat), n ≤ fuel →
      pyNatStrAux fuel n = ((Nat.digits 10 n).map decChar).reverse := by
  intro fuel
  induction fuel with
  | zero =>
    intro n h
    have : n = 0 := Nat.le_zero.mp h
    subst this
    simp [pyNatStrAux]
  | succ f ih =>
    intro n h
    by_cases hn : n = 0
    · subst hn
      simp [pyNatStrAux]
    · have hd := Nat.digits_def' (b := 10) (by norm_num) (Nat.pos_of_ne_zero hn)
      have hdiv : n / 10 ≤ f := by
        have := Nat.div_lt_self (Nat.pos_of_ne_zero hn) (show 1 < 10 by norm_num)
        omega
      simp [pyNatStrAux, hn, ih _ hdiv, hd]

/-- Intermediate: the decimal rendering is injective on positive numbers. -/
theorem pyNatStr_inj_pos {n m : Nat} (hn : 0 < n) (hm : 0 < m)
    (h : pyNatStr n = pyNatStr m) : n = m := by
  unfold pyNatStr at h
  rw [if_neg (Nat.pos_iff_ne_zero.mp hn), if_neg (Nat.pos_iff_ne_zero.mp hm)] at h
  have hdata : pyNatStrAux (n + 1) n = pyNatStrAux (m + 1) m := congrArg String.data h
  rw [pyNatStrAux_eq_digits _ _ (Nat.le_succ n), pyNatStrAux_eq_digits _ _ (Nat.le_succ m)]
    at hdata
  have hmap := List.reverse_injective hdata
  have hdig := map_decChar_inj
    (fun d hd => Nat.digits_lt_base (by norm_num) hd)
    (fun d hd => Nat.digits_lt_base (by norm_num) hd) hmap
  exact Nat.digits_inj_iff.mp hdig

/-- Intermediate: two generated tokens with distinct positive counters are
distinct strings. -/
theorem token_inj (amiId : String) {i j : Nat} (hi : 0 < i) (hj : 0 < j)
    (h : amiId ++ "-" ++ pyNatStr i = amiId ++ "-" ++ pyNatStr j) : i = j := by
  have hd := congrArg String.data h
  simp only [String.data_append] at hd
  rw [List.append_assoc, List.append_assoc] at hd
  have h2 := List.append_cancel_left hd
  have h3 := List.append_cancel_left h2
  exact pyNatStr_inj_pos hi hj (String.ext h3)

/-- Intermediate: the token sequence from counter value `c` is
`amiId-(c+1), amiId-(c+2), ...`. -/
theorem genTokens_eq (amiId : String) :
    ∀ (n c : Nat),
      genTokens amiId c n = (List.range' (c + 1) n).map (fun i => amiId ++ "-" ++ pyNatStr i) := by
  intro n
  induction n with
  | zero =>
    intro c
    simp [genTokens]
  | succ k ih =>
    intro c
    simp [genTokens, generateActionId, ih (c + 1), List.range'_succ]

/-- C8: `generateActionId` increments the per-connection counter (which the
constructor initialises to 0) and returns the token
`<connection-uuid>-<counter>` with the counter value after the increment;
the tokens generated by successive sends on one connection are therefore
`uuid-1, uuid-2, ...` and pairwise distinct; `sendMessage` generates such a
token exactly when the caller supplied none, in both the list and the dict
form. -/
theorem actionid_tokens_distinct :
    (∀ (amiId : String) (c : Nat),
        generateActionId amiId c = (amiId ++ "-" ++ pyNatStr (c + 1), c + 1)) ∧
    (∀ (amiId : String) (n : Nat),
        genTokens amiId 0 n = (List.range' 1 n).map (fun i => amiId ++ "-" ++ pyNatStr i)) ∧
    (∀ (amiId : String) (n : Nat), (genTokens amiId 0 n).Nodup) ∧
    (∀ (message : List (String × String)) (amiId : String) (c : Nat),
        lastActionIdValue message = none →
          (sendMessageList message amiId c).actionid = amiId ++ "-" ++ pyNatStr (c + 1) ∧
          (sendMessageList message amiId c).count = c + 1) ∧
    (∀ (message : List (String × String)) (amiId : String) (c : Nat),
        pydictGet? (lowerDict message) "actionid" = none →
          (sendMessageDict message amiId c).actionid = amiId ++ "-" ++ pyNatStr (c + 1) ∧
          (sendMessageDict message amiId c).count = c + 1) := by
  refine ⟨fun amiId c => rfl, fun amiId n => genTokens_eq amiId n 0, ?_, ?_, ?_⟩
  · intro amiId n
    rw [genTokens_eq amiId n 0]
    refine List.Nodup.map_on ?_ (List.nodup_range' 1 n)
    intro x hx y hy hxy
    rw [List.mem_range'_1] at hx hy
    exact token_inj amiId (by omega) (by omega) hxy
  · intro message amiId c h
    constructor <;> simp [sendMessageList, h, generateActionId]
  · intro message amiId c h
    constructor <;> simp [sendMessageDict, h, generateActionId]

/-- C8 (witness): a list-form message without a caller-supplied token gets
the token `u-1` at counter 0, and a dict-form message at counter 4 leaves
the counter at 5. -/
theorem actionid_tokens_distinct_witness :
    (sendMessageList [("action", "ping")] "u" 0).actionid = "u" ++ "-" ++ pyNatStr 1 ∧
    (sendMessageDict [("Action", "Ping")] "u" 4).count = 5 :=
  ⟨(actionid_tokens_distinct.2.2.2.1 [("action", "ping")] "u" 0 (by decide)).1,
   (actionid_tokens_distinct.2.2.2.2 [("Action", "Ping")] "u" 4 (by decide)).2⟩

/-- C10: `sendMessage` on a list-form message with no `actionid` header
appends the generated `['actionid', token]` pair to the caller's list
object in place (the list the caller holds afterwards has the extra pair);
with a caller-supplied `actionid` pair the list is left as it is; on a
dict-form message the caller's dict is never mutated — the lowercased copy
receives the generated `actionid`, and the copy alone is rendered to the
wire. -/
theorem sendMessage_mutation :
    (∀ (message : List (String × String)) (amiId : String) (c : Nat),
        lastActionIdValue message = none →
          (sendMessageList message amiId c).callerMessage =
            message ++ [("actionid", amiId ++ "-" ++ pyNatStr (c + 1))]) ∧
    (∀ (message : List (String × String)) (amiId : String) (c : Nat) (tok : String),
        lastActionIdValue message = some tok →
          (sendMessageList message amiId c).callerMessage = message) ∧
    (∀ (message : List (String × String)) (amiId : String) (c : Nat),
        (sendMessageDict message amiId c).callerMessage = message) ∧
    (∀ (message : List (String × String)) (amiId : String) (c : Nat),
        pydictGet? (lowerDict message) "actionid" = none →
          (sendMessageDict message amiId c).wireLines =
            renderLines (pydictSet (lowerDict message) "actionid"
              (amiId ++ "-" ++ pyNatStr (c + 1))) ++ [""]) := by
  refine ⟨?_, ?_, ?_, ?_⟩
  · intro message amiId c h
    simp [sendMessageList, h, generateActionId]
  · intro message amiId c tok h
    simp [sendMessageList, h]
  · intro message amiId c
    unfold sendMessageDict
    rcases hx : pydictGet? (lowerDict message) "actionid" with _ | tok <;> simp [hx]
  · intro message amiId c h
    simp [sendMessageDict, h, generateActionId]

/-- C10 (witness): sending the dict `{Action: Ping}` leaves the caller's
dict untouched, while the list `[(Action, Ping)]` gains the generated
`actionid` pair in place. -/
theorem sendMessage_mutation_witness :
    (sendMessageList [("Action", "Ping")] "u" 0).callerMessage =
      [("Action", "Ping")] ++ [("actionid", "u" ++ "-" ++ pyNatStr 1)] ∧
    (sendMessageDict [("Action", "Ping")] "u" 0).callerMessage = [("Action", "Ping")] :=
  ⟨sendMessage_mutation.1 [("Action", "Ping")] "u" 0 (by decide),
   sendMessage_mutation.2.2.1 [("Action", "Ping")] "u" 0⟩

end StarPy
